import Mathlib

/-!
Shallow embedding of the ancillary-data I/O subsystem of the `interprocess` crate:
the name resolver (`src/os/unix/local_socket/mod.rs`), the ancillary read/write
interfaces and their vectored-emulation shim (`src/os/unix/udsocket/ancillary_io.rs`),
the tokio readiness retry loop and the split/reunite machinery
(`src/os/unix/udsocket/tokio/stream/mod.rs`).

Machine integers are modelled as `Nat` (buffer lengths and byte values never overflow
in the code under study: all arithmetic is length bookkeeping bounded by allocation
sizes). Fallible calls return `Except IoErrorKind α`. Stateful loops are embedded as
explicit state-passing recursion over a finite list of environment responses (one
response per underlying call), so every run of bounded length is represented exactly.
-/

namespace Interprocess

/-- Error kinds of `std::io::Error` distinguished by the embedded code. -/
inductive IoErrorKind
  | wouldBlock
  | interrupted
  | writeZero
  | unexpectedEof
  | invalidInput
  | other
  deriving DecidableEq, Repr

/-- Boolean success test for `Except`, mirroring `Result::is_ok`. -/
def exOk {ε α : Type} : Except ε α → Bool
  | .ok _ => true
  | .error _ => false

instance {ε α : Type} [DecidableEq ε] [DecidableEq α] : DecidableEq (Except ε α) :=
  fun a b =>
  match a, b with
  | .ok x, .ok y =>
    if h : x = y then isTrue (congrArg Except.ok h)
    else isFalse (fun hh => h (Except.ok.inj hh))
  | .error x, .error y =>
    if h : x = y then isTrue (congrArg Except.error h)
    else isFalse (fun hh => h (Except.error.inj hh))
  | .ok _, .error _ => isFalse (fun hh => Except.noConfusion hh)
  | .error _, .ok _ => isFalse (fun hh => Except.noConfusion hh)

/-! ## Name resolver (`src/os/unix/local_socket/mod.rs`) -/

/-- The tri-state platform capability descriptor. Modelled from the spec: the
`NameTypeSupport` enum itself is declared outside the embedded source files; §3 gives
its three values only-path, only-namespaced, or both. -/
inductive NameTypeSupport
  | onlyPaths
  | onlyNamespaced
  | both
  deriving DecidableEq, Repr

/-- Whether the capability descriptor reports namespaced-name support. -/
def NameTypeSupport.namespaceSupport : NameTypeSupport → Bool
  | .onlyPaths => false
  | .onlyNamespaced => true
  | .both => true

/-- A logical local-socket name: raw bytes plus the namespaced flag, as consumed by
`name_to_addr` (`LocalSocketName::is_namespaced` / `into_inner_cow`). -/
structure LocalSocketName where
  inner : List Nat
  namespaced : Bool
  deriving DecidableEq, Repr

/-- Length of the `sun_path` field of `sockaddr_un` on Linux. -/
def sunPathLen : Nat := 108

/-- A low-level socket address: either a Linux abstract-namespace address or a
filesystem-path address. -/
inductive SocketAddr
  | abstractName (name : List Nat)
  | pathname (path : List Nat)
  deriving DecidableEq, Repr

/-- Embedding of `std::os::unix::net::SocketAddr::from_pathname`: fails with
`InvalidInput` on interior NUL bytes and on paths that do not fit in `sun_path`
together with the terminating NUL. -/
def SocketAddr.fromPathname (path : List Nat) : Except IoErrorKind SocketAddr :=
  if path.contains 0 then .error .invalidInput
  else if path.length < sunPathLen then .ok (.pathname path)
  else .error .invalidInput

/-- Embedding of `std::os::linux::net::SocketAddrExt::from_abstract_name`: fails with
`InvalidInput` when the name does not fit in `sun_path` after the leading NUL. -/
def SocketAddr.fromAbstractName (name : List Nat) : Except IoErrorKind SocketAddr :=
  if name.length ≤ sunPathLen - 1 then .ok (.abstractName name)
  else .error .invalidInput

/-- Embedding of `name_to_addr`. The compile-time platform is a parameter: on
Linux/Android targets the namespaced flag selects the abstract-name constructor, on
every other target the flag is ignored (the source binds it to `_is_ns` and falls
through to the path constructor). -/
def name_to_addr (linuxOrAndroid : Bool) (name : LocalSocketName) :
    Except IoErrorKind SocketAddr :=
  if linuxOrAndroid && name.namespaced then
    SocketAddr.fromAbstractName name.inner
  else
    SocketAddr.fromPathname name.inner

/-- Embedding of the `NAME_TYPE_ALWAYS_SUPPORTED` constant. The build script sets the
`uds_linux_namespace` configuration exactly for Linux/Android targets, so the same
platform flag drives this constant and the abstract-name branch of `name_to_addr`. -/
def NAME_TYPE_ALWAYS_SUPPORTED (linuxOrAndroid : Bool) : NameTypeSupport :=
  if linuxOrAndroid then .both else .onlyPaths

/-- Embedding of `name_type_support_query`. -/
def name_type_support_query (linuxOrAndroid : Bool) : NameTypeSupport :=
  NAME_TYPE_ALWAYS_SUPPORTED linuxOrAndroid

/-! ## Vectored-emulation shim (`ancillary_io.rs`) -/

/-- The buffer segment that the default vectored implementations select:
`bufs.iter_mut().find(|b| !b.is_empty()).map_or(empty, deref)`. -/
def selectedSegment (bufs : List (List Nat)) : List Nat :=
  (bufs.find? (fun b => !b.isEmpty)).getD []

/-- Index of the first non-empty buffer segment, if any. -/
def firstNonemptyIdx : List (List Nat) → Option Nat
  | [] => none
  | b :: bs => if b.isEmpty then (firstNonemptyIdx bs).map (· + 1) else some 0

/-- Default body of `ReadAncillary::read_ancillary_vectored`, abstracted over the
single-buffer primitive `f` (which also receives the ancillary buffer). -/
def read_ancillary_vectored_default {σ ρ : Type} (f : List Nat → σ → ρ)
    (bufs : List (List Nat)) (abuf : σ) : ρ :=
  f (selectedSegment bufs) abuf

/-- Embedding of `read_in_terms_of_vectored`: wraps the single buffer in a one-element
segment list and calls the vectored form. -/
def read_in_terms_of_vectored {σ ρ : Type} (fvec : List (List Nat) → σ → ρ)
    (buf : List Nat) (abuf : σ) : ρ :=
  fvec [buf] abuf

/-- Default body of `WriteAncillary::write_ancillary_vectored`, abstracted over the
single-buffer primitive. -/
def write_ancillary_vectored_default {σ ρ : Type} (f : List Nat → σ → ρ)
    (bufs : List (List Nat)) (abuf : σ) : ρ :=
  f (selectedSegment bufs) abuf

/-- Embedding of `write_in_terms_of_vectored`. -/
def write_in_terms_of_vectored {σ ρ : Type} (fvec : List (List Nat) → σ → ρ)
    (buf : List Nat) (abuf : σ) : ρ :=
  fvec [buf] abuf

/-- Effect of one scatter read delivering the byte sequence `data` into a single
buffer segment: a prefix of the segment is overwritten, the rest is preserved, and
the number of delivered bytes is returned. -/
def readOnce (data : List Nat) (buf : List Nat) : List Nat × Nat :=
  let n := min data.length buf.length
  (data.take n ++ buf.drop n, n)

/-- Concrete effect of the default vectored read on the segment list: scan for the
first non-empty segment as `find` does, read into it, and keep every other segment;
with no non-empty segment the primitive is invoked on the empty slice and delivers
zero bytes. -/
def read_vectored_effect (data : List Nat) : List (List Nat) → List (List Nat) × Nat
  | [] => ([], 0)
  | b :: bs =>
    if b.isEmpty then
      let r := read_vectored_effect data bs
      (b :: r.1, r.2)
    else
      ((readOnce data b).1 :: bs, (readOnce data b).2)

/-! ## Ancillary write interface (`ancillary_io.rs`): `write_all_ancillary`,
`write_fmt_ancillary` and `WriteAncillaryPartAppl` -/

/-- Outcome of one underlying write call, supplied by the environment: the number of
main-band bytes accepted, or an error kind. -/
inductive WOutcome
  | ok (n : Nat)
  | err (k : IoErrorKind)
  deriving DecidableEq, Repr

/-- Record of one underlying call made by `WriteAncillaryPartAppl::write`: either a
`write_ancillary(buf, abuf)` call or a plain `write(buf)` call. -/
inductive UCall
  | writeAnc (main anc : List Nat)
  | write (main : List Nat)
  deriving DecidableEq, Repr

/-- Ancillary payload attached to an underlying call (empty for plain writes). -/
def UCall.ancPart : UCall → List Nat
  | .writeAnc _ a => a
  | .write _ => []

/-- Whether an underlying call went through the plain `write` primitive. -/
def UCall.isPlainWrite : UCall → Bool
  | .write _ => true
  | .writeAnc _ _ => false

/-- Whether a call paired with its outcome actually transmitted a non-empty ancillary
payload: the call carried one and the underlying write succeeded. -/
def transmitsAnc : UCall × WOutcome → Bool
  | (c, .ok _) => !c.ancPart.isEmpty
  | (_, .err _) => false

/-- Result of running a write loop against a finite list of environment responses. -/
structure WriteRun where
  /-- Transcript of underlying calls, in order; call `i` consumed response `i`. -/
  calls : List UCall
  /-- State of the ancillary payload buffer after the loop. -/
  abufAfter : List Nat
  /-- Environment responses not consumed by the loop. -/
  rest : List WOutcome
  /-- Final result; `none` when the loop outran the modelled responses. -/
  outcome : Option (Except IoErrorKind Unit)
  deriving DecidableEq, Repr

/-- Embedding of `Write::write_all` from std driven over `WriteAncillaryPartAppl`:
while the buffer is non-empty, one call to `WriteAncillaryPartAppl::write` is made.
That call forwards to `write_ancillary(buf, abuf)` when `abuf` is non-empty — and on
success consumes the whole ancillary payload — or to the plain `write(buf)` otherwise.
`write_all` stops successfully when the buffer is exhausted, maps a zero-byte write to
`ErrorKind::WriteZero`, retries after `ErrorKind::Interrupted` (the `?` in
`WriteAncillaryPartAppl::write` propagates the error before `consume_bytes` runs, so
the payload is still pending on the retry), and propagates any other error. -/
def write_all_partappl : List Nat → List Nat → List WOutcome → WriteRun
  | buf, abuf, [] =>
    if buf.isEmpty then ⟨[], abuf, [], some (.ok ())⟩ else ⟨[], abuf, [], none⟩
  | buf, abuf, r :: rs =>
    if buf.isEmpty then ⟨[], abuf, r :: rs, some (.ok ())⟩
    else
      let call := if abuf.isEmpty then UCall.write buf else UCall.writeAnc buf abuf
      match r with
      | .ok n =>
        if n = 0 then ⟨[call], [], rs, some (.error .writeZero)⟩
        else
          let next := write_all_partappl (buf.drop n) [] rs
          ⟨call :: next.calls, next.abufAfter, next.rest, next.outcome⟩
      | .err k =>
        if k = .interrupted then
          let next := write_all_partappl buf abuf rs
          ⟨call :: next.calls, next.abufAfter, next.rest, next.outcome⟩
        else ⟨[call], abuf, rs, some (.error k)⟩

/-- Embedding of `WriteAncillaryExt::write_all_ancillary`: builds the partial
application and runs `write_all` on it. -/
def write_all_ancillary (buf abuf : List Nat) (rs : List WOutcome) : WriteRun :=
  write_all_partappl buf abuf rs

/-- Embedding of `WriteAncillaryExt::write_fmt_ancillary`: the std formatting adapter
feeds the rendered chunks through `write_all` on the same partial application, so the
ancillary state threads from one chunk to the next; the first error stops it. -/
def write_fmt_partappl : List (List Nat) → List Nat → List WOutcome → WriteRun
  | [], abuf, rs => ⟨[], abuf, rs, some (.ok ())⟩
  | c :: cs, abuf, rs =>
    let r1 := write_all_partappl c abuf rs
    match r1.outcome with
    | some (.ok _) =>
      let r2 := write_fmt_partappl cs r1.abufAfter r1.rest
      ⟨r1.calls ++ r2.calls, r2.abufAfter, r2.rest, r2.outcome⟩
    | o => ⟨r1.calls, r1.abufAfter, r1.rest, o⟩

/-- Embedding of `write_fmt_ancillary` at the level of rendered chunks. -/
def write_fmt_ancillary (chunks : List (List Nat)) (abuf : List Nat)
    (rs : List WOutcome) : WriteRun :=
  write_fmt_partappl chunks abuf rs

/-! ## Ancillary read interface (`ancillary_io.rs`): `ReadAncillarySuccess`,
`ReadAncillaryPartAppl` and the derived read operations -/

/-- Embedding of `ReadAncillarySuccess`: how many bytes landed in the main buffer and
in the ancillary buffer. -/
structure ReadAncillarySuccess where
  main : Nat
  ancillary : Nat
  deriving DecidableEq, Repr

/-- Embedding of the `Add` impl on `ReadAncillarySuccess`: componentwise sums. -/
def ReadAncillarySuccess.add (a b : ReadAncillarySuccess) : ReadAncillarySuccess :=
  ⟨a.main + b.main, a.ancillary + b.ancillary⟩

instance : Add ReadAncillarySuccess := ⟨ReadAncillarySuccess.add⟩

/-- Componentwise sum of a list of success pairs, starting from `Default::default()`. -/
def sumSuccess (l : List ReadAncillarySuccess) : ReadAncillarySuccess :=
  l.foldl (· + ·) ⟨0, 0⟩

/-- Ancillary buffer model. Modelled from the spec: the concrete `CmsgMut` buffer
kinds live outside the embedded source files; per §3/§4.1 a buffer has a capacity and
a length of valid data, a growable buffer asked to reserve `n` more bytes guarantees
exactly that headroom, and a fixed-capacity buffer silently does not grow. -/
structure CmsgMutModel where
  growable : Bool
  capacity : Nat
  len : Nat
  deriving DecidableEq, Repr

/-- Modelled from the spec: `reserve_up_to_exact(n) -> actual_reserved` — best-effort,
returns how much headroom is now guaranteed, and is a silent no-op (possibly returning
zero) for buffer kinds that cannot grow. -/
def CmsgMutModel.reserveUpToExact (ab : CmsgMutModel) (n : Nat) : CmsgMutModel × Nat :=
  if ab.growable then
    ({ ab with capacity := max ab.capacity (ab.len + n) }, n)
  else
    (ab, ab.capacity - ab.len)

/-- Outcome of one underlying `read_ancillary` call, supplied by the environment: the
main-band bytes that arrived (delivery is clamped to the requested chunk size; an
empty list is end-of-stream) together with the ancillary bytes that arrived alongside
(storage is clamped to the ancillary buffer headroom), or an error kind. -/
inductive ROutcome
  | ok (data : List Nat) (anc : Nat)
  | err (k : IoErrorKind)
  deriving DecidableEq, Repr

/-- State carried by `ReadAncillaryPartAppl`: the borrowed ancillary buffer and the
running accumulator `ret` for the return value. -/
structure ReadState where
  abuf : CmsgMutModel
  ret : ReadAncillarySuccess
  deriving DecidableEq, Repr

/-- Result of one call to `ReadAncillaryPartAppl::read`. -/
structure PartApplStep where
  /-- Main-band bytes delivered into the chunk, or the propagated error. -/
  res : Except IoErrorKind (List Nat)
  /-- The success pair of the underlying `read_ancillary` call, when it succeeded. -/
  pair : Option ReadAncillarySuccess
  /-- Arguments passed to `reserve_up_to_exact` during this call. -/
  resLog : List Nat
  /-- State after the call. -/
  stAfter : ReadState
  deriving DecidableEq, Repr

/-- Embedding of `ReadAncillaryPartAppl::read` for a main-buffer chunk of size `c`:
when the `reserve` flag is set, first ask the ancillary buffer to reserve exactly `c`
more bytes, discarding the returned amount; then perform the underlying
`read_ancillary` call, add its success pair into `ret`, and report the main bytes. -/
def partApplRead (reserve : Bool) (st : ReadState) (c : Nat) (r : ROutcome) :
    PartApplStep :=
  let st1 :=
    if reserve then { st with abuf := (st.abuf.reserveUpToExact c).1 } else st
  let rlog := if reserve then [c] else []
  match r with
  | .err k => ⟨.error k, none, rlog, st1⟩
  | .ok data anc =>
    let delivered := data.take c
    let stored := min anc (st1.abuf.capacity - st1.abuf.len)
    let sc : ReadAncillarySuccess := ⟨delivered.length, stored⟩
    ⟨.ok delivered, some sc,
     rlog,
     { abuf := { st1.abuf with len := st1.abuf.len + stored },
       ret := st1.ret + sc }⟩

/-- Result of running a read-to-end loop against a finite list of environment
responses. -/
structure ReadRun where
  /-- Bytes appended to the main `Vec` accumulator, in order. -/
  data : List Nat
  /-- Partial-application state after the loop. -/
  st : ReadState
  /-- Success pairs of the underlying `read_ancillary` calls, in order. -/
  pairs : List ReadAncillarySuccess
  /-- Arguments passed to `reserve_up_to_exact`, in order. -/
  reserveCalls : List Nat
  /-- Main-buffer chunk sizes passed to the underlying primitive, in order. -/
  readReqs : List Nat
  /-- Final result; `none` when the loop outran the modelled responses. -/
  outcome : Option (Except IoErrorKind Unit)
  deriving DecidableEq, Repr

/-- Embedding of std `read_to_end` driven over `ReadAncillaryPartAppl`. Each step of
the environment supplies the chunk size `c` that the std growth strategy picked for
that iteration together with the outcome of the underlying call. The loop stops
successfully on a zero-byte read (end of stream), retries after
`ErrorKind::Interrupted`, and propagates any other error. -/
def read_to_end_loop (reserve : Bool) :
    List (Nat × ROutcome) → ReadState → ReadRun
  | [], st => ⟨[], st, [], [], [], none⟩
  | (c, r) :: steps, st =>
    let step := partApplRead reserve st c r
    match step.res with
    | .error k =>
      if k = .interrupted then
        let next := read_to_end_loop reserve steps step.stAfter
        ⟨next.data, next.st, next.pairs, step.resLog ++ next.reserveCalls,
         c :: next.readReqs, next.outcome⟩
      else ⟨[], step.stAfter, step.pair.toList, step.resLog, [c], some (.error k)⟩
    | .ok data =>
      if data.isEmpty then
        ⟨[], step.stAfter, step.pair.toList, step.resLog, [c], some (.ok ())⟩
      else
        let next := read_to_end_loop reserve steps step.stAfter
        ⟨data ++ next.data, next.st, step.pair.toList ++ next.pairs,
         step.resLog ++ next.reserveCalls, c :: next.readReqs, next.outcome⟩

/-- Embedding of `ReadAncillaryExt::read_ancillary_to_end`: runs the partial
application with `reserve: true` and a fresh `Default::default()` accumulator. -/
def read_ancillary_to_end (steps : List (Nat × ROutcome)) (abuf : CmsgMutModel) :
    ReadRun :=
  read_to_end_loop true steps ⟨abuf, ⟨0, 0⟩⟩

/-- Embedding of `ReadAncillaryExt::read_to_end_with_ancillary`: same loop with
`reserve: false`. -/
def read_to_end_with_ancillary (steps : List (Nat × ROutcome)) (abuf : CmsgMutModel) :
    ReadRun :=
  read_to_end_loop false steps ⟨abuf, ⟨0, 0⟩⟩

/-- Result of running the read-exact loop. -/
structure ReadExactRun where
  /-- Bytes written into the destination buffer, in order. -/
  data : List Nat
  /-- Partial-application state after the loop. -/
  st : ReadState
  /-- Success pairs of the underlying `read_ancillary` calls, in order. -/
  pairs : List ReadAncillarySuccess
  /-- Final result; `none` when the loop outran the modelled responses. -/
  outcome : Option (Except IoErrorKind Unit)
  deriving DecidableEq, Repr

/-- Embedding of std `read_exact` driven over `ReadAncillaryPartAppl` with
`reserve: false`: each call passes the remaining slice, a zero-byte read with bytes
still missing is `ErrorKind::UnexpectedEof`, `Interrupted` is retried, other errors
propagate. -/
def read_exact_loop : List ROutcome → Nat → ReadState → ReadExactRun
  | _, 0, st => ⟨[], st, [], some (.ok ())⟩
  | [], _ + 1, st => ⟨[], st, [], none⟩
  | r :: rs, need + 1, st =>
    let step := partApplRead false st (need + 1) r
    match step.res with
    | .error k =>
      if k = .interrupted then
        let next := read_exact_loop rs (need + 1) step.stAfter
        ⟨next.data, next.st, next.pairs, next.outcome⟩
      else ⟨[], step.stAfter, [], some (.error k)⟩
    | .ok data =>
      if data.isEmpty then
        ⟨[], step.stAfter, step.pair.toList, some (.error .unexpectedEof)⟩
      else
        let next := read_exact_loop rs (need + 1 - data.length) step.stAfter
        ⟨data ++ next.data, next.st, step.pair.toList ++ next.pairs, next.outcome⟩

/-- Embedding of `ReadAncillaryExt::read_exact_with_ancillary` for a destination
buffer of size `n`. -/
def read_exact_with_ancillary (rs : List ROutcome) (n : Nat) (abuf : CmsgMutModel) :
    ReadExactRun :=
  read_exact_loop rs n ⟨abuf, ⟨0, 0⟩⟩

/-! ## Readiness retry loop (`tokio/stream/mod.rs`):
`poll_read_ancillary_vectored` / `poll_write_ancillary_vectored` -/

/-- Outcome of one `poll_read_ready` / `poll_write_ready` call on the tokio reactor:
not ready yet (interest registered, `Poll::Pending`), ready, or a readiness error. -/
inductive ReadyOutcome
  | pending
  | readyOk
  | readyErr (k : IoErrorKind)
  deriving DecidableEq, Repr

/-- Result of one poll of the retry loop. -/
inductive PollRes (α : Type)
  | ready (r : Except IoErrorKind α)
  | pendingRes
  deriving DecidableEq, Repr

/-- Embedding of the retry loop shared by `poll_read_ancillary_vectored` and
`poll_write_ancillary_vectored`. Each environment step supplies the outcome of the
raw syscall (`ancwrap::recvmsg` / `ancwrap::sendmsg`) and, should it be consulted,
the outcome of the readiness poll. A syscall success or non-would-block error
resolves the poll; on a would-block error the readiness poll runs: `Pending`
suspends, a readiness error is propagated by the `?`, and readiness restarts the
loop. `none` means the loop outran the modelled steps. -/
def poll_ancillary_loop {α : Type} :
    List (Except IoErrorKind α × ReadyOutcome) → Option (PollRes α)
  | [] => none
  | (s, rd) :: rest =>
    match s with
    | .ok r => some (.ready (.ok r))
    | .error k =>
      if k = .wouldBlock then
        match rd with
        | .pending => some .pendingRes
        | .readyErr k2 => some (.ready (.error k2))
        | .readyOk => poll_ancillary_loop rest
      else some (.ready (.error k))

/-- Embedding of `AsyncReadAncillary::poll_read_ancillary_vectored` for `UdStream`. -/
def poll_read_ancillary_vectored
    (trace : List (Except IoErrorKind ReadAncillarySuccess × ReadyOutcome)) :
    Option (PollRes ReadAncillarySuccess) :=
  poll_ancillary_loop trace

/-- Embedding of `AsyncWriteAncillary::poll_write_ancillary_vectored` for
`UdStream`. -/
def poll_write_ancillary_vectored
    (trace : List (Except IoErrorKind Nat × ReadyOutcome)) :
    Option (PollRes Nat) :=
  poll_ancillary_loop trace

/-! ## Half-split / reunite (`tokio/stream/mod.rs`) -/

/-- Modelled from the spec: the tokio stream underlying `UdStream`. Per §4.7 and the
tokio contract relied upon by `UdStream::reunite`, a connection is identified by an
opaque equality-comparable identity. -/
structure TokioUdStream where
  id : Nat
  deriving DecidableEq, Repr

/-- Modelled from the spec: tokio's owned read half, carrying the identity tag of the
connection whose `into_split` produced it. -/
structure TokioOwnedReadHalf where
  tag : Nat
  deriving DecidableEq, Repr

/-- Modelled from the spec: tokio's owned write half. -/
structure TokioOwnedWriteHalf where
  tag : Nat
  deriving DecidableEq, Repr

/-- Modelled from the spec: tokio's `UnixStream::into_split` hands out two owned
halves tagged with the identity of the consumed connection. -/
def TokioUdStream.intoSplit (s : TokioUdStream) :
    TokioOwnedReadHalf × TokioOwnedWriteHalf :=
  (⟨s.id⟩, ⟨s.id⟩)

/-- Modelled from the spec: tokio's `ReuniteError`, returning both halves. -/
structure TokioReuniteError where
  read : TokioOwnedReadHalf
  write : TokioOwnedWriteHalf
  deriving DecidableEq, Repr

/-- Modelled from the spec: tokio's `OwnedReadHalf::reunite` succeeds exactly when
both halves carry the identity tag of the same split connection, reconstructing it;
otherwise it hands both halves back in the error. -/
def TokioOwnedReadHalf.reunite (r : TokioOwnedReadHalf) (w : TokioOwnedWriteHalf) :
    Except TokioReuniteError TokioUdStream :=
  if r.tag = w.tag then .ok ⟨r.tag⟩ else .error ⟨r, w⟩

/-- Embedding of `UdStream`: a newtype over the tokio stream. -/
structure UdStream where
  inner : TokioUdStream
  deriving DecidableEq, Repr

/-- Embedding of `OwnedReadHalf` (defined in the `read_half` module, wrapping the
tokio half). -/
structure OwnedReadHalf where
  inner : TokioOwnedReadHalf
  deriving DecidableEq, Repr

/-- Embedding of `OwnedWriteHalf`. -/
structure OwnedWriteHalf where
  inner : TokioOwnedWriteHalf
  deriving DecidableEq, Repr

/-- Embedding of the crate's `ReuniteError` tuple struct: both halves, unchanged. -/
structure ReuniteError where
  read : OwnedReadHalf
  write : OwnedWriteHalf
  deriving DecidableEq, Repr

/-- Embedding of the `From<TokioReuniteError> for ReuniteError` conversion: rewraps
each half without modification. -/
def reuniteErrorOfTokio (e : TokioReuniteError) : ReuniteError :=
  ⟨⟨e.read⟩, ⟨e.write⟩⟩

/-- Embedding of `UdStream::into_split`: unwraps, splits the tokio stream, rewraps. -/
def UdStream.intoSplit (s : UdStream) : OwnedReadHalf × OwnedWriteHalf :=
  let p := s.inner.intoSplit
  (⟨p.1⟩, ⟨p.2⟩)

/-- Embedding of `UdStream::reunite`: unwraps both halves, delegates to the tokio
reunite, and converts the error through `From<TokioReuniteError>` on failure. -/
def UdStream.reunite (read : OwnedReadHalf) (write : OwnedWriteHalf) :
    Except ReuniteError UdStream :=
  match read.inner.reunite write.inner with
  | .ok s => .ok ⟨s⟩
  | .error e => .error (reuniteErrorOfTokio e)

/-! ## Theorems -/

/-- C1, counterexample: on a build without namespaced-name support (capability
`OnlyPaths`), resolving the namespaced name with byte string `[97]` does not fail
with an unsupported-name-kind error — it succeeds, producing a path address — so
resolution with the namespaced flag set is not equivalent to the capability query
reporting namespaced support. -/
theorem c1_namespaced_resolution_counterexample :
    exOk (name_to_addr false ⟨[97], true⟩) = true ∧
    (name_type_support_query false).namespaceSupport = false := by decide

/-- C1 (amended): resolving a non-namespaced name always uses the path constructor,
and succeeds whenever the path is well-formed (no interior NUL, fits `sun_path`);
resolving a namespaced name uses the abstract-namespace constructor exactly when the
capability query reports namespaced support, and otherwise the namespaced flag is
ignored and the name is resolved as a filesystem path — it does not fail with an
unsupported-name-kind error. -/
theorem name_to_addr_capability_behavior (p : Bool) (bytes : List Nat)
    (h0 : bytes.contains 0 = false) (hlen : bytes.length < sunPathLen) :
    (name_to_addr p ⟨bytes, false⟩ = SocketAddr.fromPathname bytes) ∧
    (name_to_addr p ⟨bytes, true⟩ =
      if (name_type_support_query p).namespaceSupport then
        SocketAddr.fromAbstractName bytes
      else SocketAddr.fromPathname bytes) ∧
    exOk (name_to_addr p ⟨bytes, false⟩) = true := by
  have h0' : ¬(0 ∈ bytes) := by simpa using h0
  cases p <;>
    simp [name_to_addr, name_type_support_query, NAME_TYPE_ALWAYS_SUPPORTED,
      NameTypeSupport.namespaceSupport, SocketAddr.fromPathname, exOk, h0', hlen]

/-- Witness for `name_to_addr_capability_behavior` at `p = true`, `bytes = [97]`. -/
theorem name_to_addr_capability_behavior_witness :
    (name_to_addr true ⟨[97], false⟩ = SocketAddr.fromPathname [97]) ∧
    (name_to_addr true ⟨[97], true⟩ =
      if (name_type_support_query true).namespaceSupport then
        SocketAddr.fromAbstractName [97]
      else SocketAddr.fromPathname [97]) ∧
    exOk (name_to_addr true ⟨[97], false⟩) = true :=
  name_to_addr_capability_behavior true [97] (by decide) (by decide)

/-- C4: evaluating the one-element vectored wrapping through the default vectored
fallback is exactly the direct single-buffer call, for both the read and the write
direction and for every primitive, buffer and ancillary buffer. -/
theorem vectored_emulation_round_trip {σ ρ : Type} (fr fw : List Nat → σ → ρ)
    (buf : List Nat) (abuf : σ) :
    read_in_terms_of_vectored (read_ancillary_vectored_default fr) buf abuf =
      fr buf abuf ∧
    write_in_terms_of_vectored (write_ancillary_vectored_default fw) buf abuf =
      fw buf abuf := by
  constructor <;> cases buf <;> rfl

theorem selectedSegment_nil_cons (bs : List (List Nat)) :
    selectedSegment (([] : List Nat) :: bs) = selectedSegment bs := by
  simp [selectedSegment, List.find?]

theorem selectedSegment_cons_cons (x : Nat) (xs : List Nat) (bs : List (List Nat)) :
    selectedSegment ((x :: xs) :: bs) = x :: xs := by
  simp [selectedSegment, List.find?]

theorem firstNonemptyIdx_none_getD (bufs : List (List Nat))
    (h : firstNonemptyIdx bufs = none) : ∀ j, bufs.getD j [] = [] := by
  induction bufs with
  | nil => intro j; simp
  | cons b bs ih =>
    intro j
    rcases b with _ | ⟨x, xs⟩
    · rcases hfx : firstNonemptyIdx bs with _ | k2
      · rcases j with _ | k
        · rfl
        · exact ih hfx k
      · rw [firstNonemptyIdx, hfx] at h
        simp at h
    · rw [firstNonemptyIdx] at h
      simp at h

theorem firstNonemptyIdx_none_selected (bufs : List (List Nat))
    (h : firstNonemptyIdx bufs = none) : selectedSegment bufs = [] := by
  induction bufs with
  | nil => rfl
  | cons b bs ih =>
    rcases b with _ | ⟨x, xs⟩
    · rcases hfx : firstNonemptyIdx bs with _ | k2
      · rw [selectedSegment_nil_cons]
        exact ih hfx
      · rw [firstNonemptyIdx, hfx] at h
        simp at h
    · rw [firstNonemptyIdx] at h
      simp at h

theorem readVectoredEffect_none (data : List Nat) (bufs : List (List Nat))
    (h : firstNonemptyIdx bufs = none) :
    read_vectored_effect data bufs = (bufs, 0) := by
  induction bufs with
  | nil => rfl
  | cons b bs ih =>
    rcases b with _ | ⟨x, xs⟩
    · rcases hfx : firstNonemptyIdx bs with _ | k2
      · simp [read_vectored_effect, ih hfx]
      · rw [firstNonemptyIdx, hfx] at h
        simp at h
    · rw [firstNonemptyIdx] at h
      simp at h

theorem firstNonemptyIdx_some (bufs : List (List Nat)) (i : Nat)
    (h : firstNonemptyIdx bufs = some i) :
    bufs.getD i [] ≠ [] ∧ (∀ j, j < i → bufs.getD j [] = []) ∧
      selectedSegment bufs = bufs.getD i [] := by
  induction bufs generalizing i with
  | nil => simp [firstNonemptyIdx] at h
  | cons b bs ih =>
    rcases b with _ | ⟨x, xs⟩
    · rcases hfx : firstNonemptyIdx bs with _ | k
      · rw [firstNonemptyIdx, hfx] at h
        simp at h
      · rw [firstNonemptyIdx, hfx] at h
        simp at h
        obtain ⟨h1, h2, h3⟩ := ih k hfx
        subst h
        refine ⟨by simpa using h1, ?_, ?_⟩
        · intro j hj
          rcases j with _ | j2
          · rfl
          · exact h2 j2 (by omega)
        · rw [selectedSegment_nil_cons]
          simpa using h3
    · rw [firstNonemptyIdx] at h
      simp only [List.isEmpty_cons, if_neg, Bool.false_eq_true, not_false_iff,
        Option.some.injEq, reduceIte] at h
      subst h
      refine ⟨by simp, by omega, ?_⟩
      simp [selectedSegment_cons_cons]

theorem readVectoredEffect_some (data : List Nat) (bufs : List (List Nat)) (i : Nat)
    (h : firstNonemptyIdx bufs = some i) :
    (read_vectored_effect data bufs).1.getD i [] =
      (readOnce data (bufs.getD i [])).1 ∧
    ∀ j, j ≠ i → (read_vectored_effect data bufs).1.getD j [] = bufs.getD j [] := by
  induction bufs generalizing i with
  | nil => simp [firstNonemptyIdx] at h
  | cons b bs ih =>
    rcases b with _ | ⟨x, xs⟩
    · rcases hfx : firstNonemptyIdx bs with _ | k
      · rw [firstNonemptyIdx, hfx] at h
        simp at h
      · rw [firstNonemptyIdx, hfx] at h
        simp at h
        obtain ⟨h1, h2⟩ := ih k hfx
        subst h
        constructor
        · simpa [read_vectored_effect] using h1
        · intro j hj
          rcases j with _ | j2
          · simp [read_vectored_effect]
          · simpa [read_vectored_effect] using h2 j2 (by omega)
    · rw [firstNonemptyIdx] at h
      simp only [List.isEmpty_cons, Bool.false_eq_true, if_neg, not_false_iff,
        Option.some.injEq, reduceIte] at h
      subst h
      constructor
      · simp [read_vectored_effect]
      · intro j hj
        rcases j with _ | j2
        · omega
        · simp [read_vectored_effect]

theorem readVectoredEffect_count (data : List Nat) (bufs : List (List Nat)) :
    (read_vectored_effect data bufs).2 =
      min data.length (selectedSegment bufs).length := by
  induction bufs with
  | nil => simp [read_vectored_effect, selectedSegment]
  | cons b bs ih =>
    rcases b with _ | ⟨x, xs⟩
    · rw [selectedSegment_nil_cons]
      simpa [read_vectored_effect] using ih
    · rw [selectedSegment_cons_cons]
      simp [read_vectored_effect, readOnce]

/-- C5: the default vectored read and write implementations select the first
non-empty segment (reading into the empty buffer and delivering zero bytes when all
segments are empty), delegate to the single-buffer primitive on that segment alone,
and leave every other segment untouched. -/
theorem vectored_default_first_nonempty {σ ρ : Type} (f : List Nat → σ → ρ)
    (abuf : σ) (data : List Nat) (bufs : List (List Nat)) :
    (read_vectored_effect data bufs).2 =
      min data.length (selectedSegment bufs).length ∧
    write_ancillary_vectored_default f bufs abuf = f (selectedSegment bufs) abuf ∧
    (∀ i, firstNonemptyIdx bufs = some i →
      bufs.getD i [] ≠ [] ∧ (∀ j, j < i → bufs.getD j [] = []) ∧
      selectedSegment bufs = bufs.getD i [] ∧
      (read_vectored_effect data bufs).1.getD i [] =
        (readOnce data (bufs.getD i [])).1 ∧
      (∀ j, j ≠ i → (read_vectored_effect data bufs).1.getD j [] = bufs.getD j [])) ∧
    (firstNonemptyIdx bufs = none →
      (∀ j, bufs.getD j [] = []) ∧ selectedSegment bufs = [] ∧
      read_vectored_effect data bufs = (bufs, 0)) := by
  refine ⟨readVectoredEffect_count data bufs, rfl, ?_, ?_⟩
  · intro i hi
    obtain ⟨h1, h2, h3⟩ := firstNonemptyIdx_some bufs i hi
    obtain ⟨h4, h5⟩ := readVectoredEffect_some data bufs i hi
    exact ⟨h1, h2, h3, h4, h5⟩
  · intro hn
    exact ⟨firstNonemptyIdx_none_getD bufs hn, firstNonemptyIdx_none_selected bufs hn,
      readVectoredEffect_none data bufs hn⟩

/-- Whether an environment response is the retryable `ErrorKind::Interrupted`. -/
def WOutcome.isInterrupted : WOutcome → Bool
  | .err .interrupted => true
  | _ => false

theorem partappl_call_ancPart (buf abuf : List Nat) :
    (if abuf.isEmpty then UCall.write buf else UCall.writeAnc buf abuf).ancPart
      = abuf := by
  cases abuf <;> rfl

theorem write_all_partappl_empty_abuf (rs : List WOutcome) :
    ∀ buf, ((write_all_partappl buf [] rs).calls.all UCall.isPlainWrite = true) ∧
      (write_all_partappl buf [] rs).abufAfter = [] := by
  induction rs with
  | nil =>
    intro buf
    by_cases hb : buf.isEmpty <;> simp [write_all_partappl, hb]
  | cons r rs ih =>
    intro buf
    by_cases hb : buf.isEmpty
    · simp [write_all_partappl, hb]
    · rcases r with n | k
      · by_cases hn : n = 0
        · simp [write_all_partappl, hb, hn, UCall.isPlainWrite]
        · have h2 := ih (buf.drop n)
          simp [write_all_partappl, hb, hn, UCall.isPlainWrite, h2.1, h2.2]
      · by_cases hk : k = IoErrorKind.interrupted
        · have h2 := ih buf
          simp [write_all_partappl, hb, hk, UCall.isPlainWrite, h2.1, h2.2]
        · simp [write_all_partappl, hb, hk, UCall.isPlainWrite]

theorem write_all_countP_empty (rs : List WOutcome) :
    ∀ buf, ((write_all_partappl buf [] rs).calls.zip rs).countP transmitsAnc = 0 := by
  induction rs with
  | nil =>
    intro buf
    by_cases hb : buf.isEmpty <;> simp [write_all_partappl, hb]
  | cons r rs ih =>
    intro buf
    by_cases hb : buf.isEmpty
    · simp [write_all_partappl, hb]
    · rcases r with n | k
      · by_cases hn : n = 0
        · simp [write_all_partappl, hb, hn, List.countP_cons, transmitsAnc,
            UCall.ancPart]
        · simp [write_all_partappl, hb, hn, List.countP_cons, transmitsAnc,
            UCall.ancPart, ih (buf.drop n)]
      · by_cases hk : k = IoErrorKind.interrupted
        · simp [write_all_partappl, hb, hk, List.countP_cons, transmitsAnc,
            ih buf]
        · simp [write_all_partappl, hb, hk, List.countP_cons, transmitsAnc]

theorem write_all_partappl_ancPart_formula (rs : List WOutcome) :
    ∀ buf abuf i, i < (write_all_partappl buf abuf rs).calls.length →
      ((write_all_partappl buf abuf rs).calls.getD i (.write [])).ancPart =
        if (rs.take i).all WOutcome.isInterrupted then abuf else [] := by
  induction rs with
  | nil =>
    intro buf abuf i hi
    by_cases hb : buf.isEmpty <;> simp [write_all_partappl, hb] at hi
  | cons r rs ih =>
    intro buf abuf i hi
    by_cases hb : buf.isEmpty
    · simp [write_all_partappl, hb] at hi
    · rcases r with n | k
      · by_cases hn : n = 0
        · rcases i with _ | j
          · cases abuf <;> simp [write_all_partappl, hb, hn, UCall.ancPart]
          · simp [write_all_partappl, hb, hn] at hi
        · rcases i with _ | j
          · cases abuf <;> simp [write_all_partappl, hb, hn, UCall.ancPart]
          · have hj : j < (write_all_partappl (buf.drop n) [] rs).calls.length := by
              simpa [write_all_partappl, hb, hn] using hi
            have hrec := ih (buf.drop n) [] j hj
            rw [List.getD_eq_getElem?_getD] at hrec
            simp [write_all_partappl, hb, hn, hrec, WOutcome.isInterrupted]
      · by_cases hk : k = IoErrorKind.interrupted
        · subst hk
          rcases i with _ | j
          · cases abuf <;> simp [write_all_partappl, hb, UCall.ancPart]
          · have hj : j < (write_all_partappl buf abuf rs).calls.length := by
              simpa [write_all_partappl, hb] using hi
            have hrec := ih buf abuf j hj
            rw [List.getD_eq_getElem?_getD] at hrec
            simp [write_all_partappl, hb, hrec, WOutcome.isInterrupted]
        · rcases i with _ | j
          · cases abuf <;> simp [write_all_partappl, hb, hk, UCall.ancPart]
          · simp [write_all_partappl, hb, hk] at hi

theorem write_all_countP_le_one (rs : List WOutcome) :
    ∀ buf abuf, abuf ≠ [] →
      (((write_all_partappl buf abuf rs).calls.zip rs).countP transmitsAnc ≤ 1) ∧
      ((write_all_partappl buf abuf rs).outcome = some (.ok ()) → buf ≠ [] →
        ((write_all_partappl buf abuf rs).calls.zip rs).countP transmitsAnc = 1) := by
  induction rs with
  | nil =>
    intro buf abuf _
    by_cases hb : buf.isEmpty
    · refine ⟨by simp [write_all_partappl, hb], fun _ hbuf => ?_⟩
      exact absurd (List.isEmpty_iff.mp hb) hbuf
    · simp [write_all_partappl, hb]
  | cons r rs ih =>
    intro buf abuf habuf
    by_cases hb : buf.isEmpty
    · refine ⟨by simp [write_all_partappl, hb], fun _ hbuf => ?_⟩
      exact absurd (List.isEmpty_iff.mp hb) hbuf
    · have hcall : (if abuf.isEmpty then UCall.write buf
          else UCall.writeAnc buf abuf) = UCall.writeAnc buf abuf := by
        simp [List.isEmpty_iff, habuf]
      rcases r with n | k
      · by_cases hn : n = 0
        · simp [write_all_partappl, hb, hn, hcall, List.countP_cons, transmitsAnc,
            UCall.ancPart, List.isEmpty_iff, habuf]
        · have h0 := write_all_countP_empty rs (buf.drop n)
          simp [write_all_partappl, hb, hn, hcall, List.countP_cons, transmitsAnc,
            UCall.ancPart, List.isEmpty_iff, habuf, h0]
      · by_cases hk : k = IoErrorKind.interrupted
        · have h2 := ih buf abuf habuf
          subst hk
          constructor
          · simpa [write_all_partappl, hb, hcall, List.countP_cons, transmitsAnc]
              using h2.1
          · intro ho hbuf
            have ho2 : (write_all_partappl buf abuf rs).outcome = some (.ok ()) := by
              simpa [write_all_partappl, hb, hcall] using ho
            simpa [write_all_partappl, hb, hcall, List.countP_cons, transmitsAnc]
              using h2.2 ho2 hbuf
        · simp [write_all_partappl, hb, hk, hcall, List.countP_cons, transmitsAnc]

/-- C2, counterexample: with buffer `[1, 2]`, ancillary payload `[9]` and an
underlying writer whose first call is interrupted and whose second accepts both
bytes, the write-all loop completes successfully yet its second underlying call —  a
subsequent iteration — still passes the non-empty ancillary payload, so the payload
is not attached to the first underlying write call only. -/
theorem c2_first_call_only_counterexample :
    (write_all_ancillary [1, 2] [9] [.err .interrupted, .ok 2]).calls =
      [UCall.writeAnc [1, 2] [9], UCall.writeAnc [1, 2] [9]] ∧
    (write_all_ancillary [1, 2] [9] [.err .interrupted, .ok 2]).outcome =
      some (.ok ()) ∧
    ((write_all_ancillary [1, 2] [9] [.err .interrupted, .ok 2]).calls.getD 1
        (.write [])).ancPart ≠ [] := by decide

/-- C2 (amended): the ancillary payload stays attached to every underlying call up to
and including the first call that is not interrupted (an interrupted call transmits
nothing, so the payload is still pending on the retry); every call after that point
passes an empty ancillary payload; consequently at most one underlying call — and,
in a run that completes successfully on a non-empty buffer, exactly one — transmits
the non-empty ancillary payload. -/
theorem write_all_ancillary_payload_once (buf abuf : List Nat) (rs : List WOutcome)
    (h : abuf ≠ []) :
    (∀ i, i < (write_all_ancillary buf abuf rs).calls.length →
      ((write_all_ancillary buf abuf rs).calls.getD i (.write [])).ancPart =
        if (rs.take i).all WOutcome.isInterrupted then abuf else []) ∧
    ((write_all_ancillary buf abuf rs).calls.zip rs).countP transmitsAnc ≤ 1 ∧
    ((write_all_ancillary buf abuf rs).outcome = some (.ok ()) → buf ≠ [] →
      ((write_all_ancillary buf abuf rs).calls.zip rs).countP transmitsAnc = 1) := by
  refine ⟨fun i hi => write_all_partappl_ancPart_formula rs buf abuf i hi, ?_, ?_⟩
  · exact (write_all_countP_le_one rs buf abuf h).1
  · exact (write_all_countP_le_one rs buf abuf h).2

/-- Witness for `write_all_ancillary_payload_once` at `buf = [1]`, `abuf = [9]`,
`rs = [.ok 1]`. -/
theorem write_all_ancillary_payload_once_witness :
    (∀ i, i < (write_all_ancillary [1] [9] [.ok 1]).calls.length →
      ((write_all_ancillary [1] [9] [.ok 1]).calls.getD i (.write [])).ancPart =
        if (([WOutcome.ok 1]).take i).all WOutcome.isInterrupted then [9] else []) ∧
    ((write_all_ancillary [1] [9] [.ok 1]).calls.zip [WOutcome.ok 1]).countP
      transmitsAnc ≤ 1 ∧
    ((write_all_ancillary [1] [9] [.ok 1]).outcome = some (.ok ()) → [1] ≠ [] →
      ((write_all_ancillary [1] [9] [.ok 1]).calls.zip [WOutcome.ok 1]).countP
        transmitsAnc = 1) :=
  write_all_ancillary_payload_once [1] [9] [.ok 1] (by decide)

theorem write_fmt_partappl_empty_abuf (chunks : List (List Nat)) :
    ∀ rs, ((write_fmt_partappl chunks [] rs).calls.all UCall.isPlainWrite = true) ∧
      (write_fmt_partappl chunks [] rs).abufAfter = [] := by
  induction chunks with
  | nil => intro rs; simp [write_fmt_partappl]
  | cons c cs ih =>
    intro rs
    have h1 := write_all_partappl_empty_abuf rs c
    rcases ho : (write_all_partappl c [] rs).outcome with _ | e
    · simp [write_fmt_partappl, ho, h1.1, h1.2]
    · rcases e with e | u
      · simp [write_fmt_partappl, ho, h1.1, h1.2]
      · have h2 := ih (write_all_partappl c [] rs).rest
        simp [write_fmt_partappl, ho, h1.1, h1.2, h2.1, h2.2, List.all_append]

/-- C10: with an empty ancillary payload, every underlying call made by
`write_all_ancillary` and by `write_fmt_ancillary` goes through the plain `write`
primitive; `write_ancillary` is never invoked. -/
theorem empty_ancillary_payload_uses_plain_write (buf : List Nat)
    (chunks : List (List Nat)) (rs rsf : List WOutcome) :
    ((write_all_ancillary buf [] rs).calls.all UCall.isPlainWrite = true) ∧
    ((write_fmt_ancillary chunks [] rsf).calls.all UCall.isPlainWrite = true) :=
  ⟨(write_all_partappl_empty_abuf rs buf).1,
   (write_fmt_partappl_empty_abuf chunks rsf).1⟩

theorem partApplRead_res_err (reserve : Bool) (st : ReadState) (c : Nat)
    (k : IoErrorKind) : (partApplRead reserve st c (.err k)).res = .error k := by
  cases reserve <;> rfl

theorem partApplRead_res_ok (reserve : Bool) (st : ReadState) (c : Nat)
    (data : List Nat) (anc : Nat) :
    (partApplRead reserve st c (.ok data anc)).res = .ok (data.take c) := by
  cases reserve <;> rfl

theorem partApplRead_pair_err (reserve : Bool) (st : ReadState) (c : Nat)
    (k : IoErrorKind) : (partApplRead reserve st c (.err k)).pair = none := by
  cases reserve <;> rfl

theorem partApplRead_ret_eq (reserve : Bool) (st : ReadState) (c : Nat)
    (r : ROutcome) :
    (partApplRead reserve st c r).stAfter.ret =
      (partApplRead reserve st c r).pair.toList.foldl (· + ·) st.ret := by
  cases reserve <;> rcases r with ⟨data, anc⟩ | k <;> rfl

theorem partApplRead_ret_main (reserve : Bool) (st : ReadState) (c : Nat)
    (data : List Nat) (anc : Nat) :
    (partApplRead reserve st c (.ok data anc)).stAfter.ret.main =
      st.ret.main + (data.take c).length := by
  cases reserve <;> rfl

theorem partApplRead_ret_main_err (reserve : Bool) (st : ReadState) (c : Nat)
    (k : IoErrorKind) :
    (partApplRead reserve st c (.err k)).stAfter.ret.main = st.ret.main := by
  cases reserve <;> rfl

theorem partApplRead_resLog (reserve : Bool) (st : ReadState) (c : Nat)
    (r : ROutcome) :
    (partApplRead reserve st c r).resLog = if reserve then [c] else [] := by
  cases reserve <;> rcases r with ⟨data, anc⟩ | k <;> rfl

theorem partApplRead_growable (reserve : Bool) (st : ReadState) (c : Nat)
    (r : ROutcome) :
    (partApplRead reserve st c r).stAfter.abuf.growable = st.abuf.growable := by
  cases reserve <;> rcases r with ⟨data, anc⟩ | k <;>
    by_cases hg : st.abuf.growable <;>
    simp [partApplRead, CmsgMutModel.reserveUpToExact, hg]

theorem partApplRead_fixed_eq (st : ReadState) (c : Nat) (r : ROutcome)
    (h : st.abuf.growable = false) :
    partApplRead true st c r =
      { partApplRead false st c r with resLog := [c] } := by
  have hres : (st.abuf.reserveUpToExact c).1 = st.abuf := by
    simp [CmsgMutModel.reserveUpToExact, h]
  rcases r with ⟨data, anc⟩ | k <;> simp [partApplRead, hres]

theorem read_to_end_loop_ret (reserve : Bool) (steps : List (Nat × ROutcome)) :
    ∀ st : ReadState, (read_to_end_loop reserve steps st).st.ret =
      (read_to_end_loop reserve steps st).pairs.foldl (· + ·) st.ret := by
  induction steps with
  | nil => intro st; rfl
  | cons s steps ih =>
    intro st
    obtain ⟨c, r⟩ := s
    rcases r with ⟨data, anc⟩ | k
    · by_cases hd : (data.take c).isEmpty
      · simp [read_to_end_loop, partApplRead_res_ok, hd, partApplRead_ret_eq]
      · have hrec := ih (partApplRead reserve st c (.ok data anc)).stAfter
        simp [read_to_end_loop, partApplRead_res_ok, hd, hrec,
          List.foldl_append, partApplRead_ret_eq]
    · by_cases hk : k = IoErrorKind.interrupted
      · subst hk
        have hrec := ih (partApplRead reserve st c (.err .interrupted)).stAfter
        simp [read_to_end_loop, partApplRead_res_err, hrec, partApplRead_ret_eq,
          partApplRead_pair_err]
      · simp [read_to_end_loop, partApplRead_res_err, hk, partApplRead_ret_eq]

theorem read_to_end_loop_main (reserve : Bool) (steps : List (Nat × ROutcome)) :
    ∀ st : ReadState, (read_to_end_loop reserve steps st).st.ret.main =
      st.ret.main + (read_to_end_loop reserve steps st).data.length := by
  induction steps with
  | nil => intro st; simp [read_to_end_loop]
  | cons s steps ih =>
    intro st
    obtain ⟨c, r⟩ := s
    rcases r with ⟨data, anc⟩ | k
    · by_cases hd : (data.take c).isEmpty
      · have h0 : (data.take c).length = 0 := by simpa using hd
        simp [read_to_end_loop, partApplRead_res_ok, hd, partApplRead_ret_main, h0]
      · have hrec := ih (partApplRead reserve st c (.ok data anc)).stAfter
        have hm := partApplRead_ret_main reserve st c data anc
        simp [read_to_end_loop, partApplRead_res_ok, hd, hrec, hm]
        omega
    · by_cases hk : k = IoErrorKind.interrupted
      · subst hk
        have hrec := ih (partApplRead reserve st c (.err .interrupted)).stAfter
        have hm := partApplRead_ret_main_err reserve st c IoErrorKind.interrupted
        simp [read_to_end_loop, partApplRead_res_err, hrec, hm]
      · simp [read_to_end_loop, partApplRead_res_err, hk, partApplRead_ret_main_err]

theorem read_to_end_loop_agree (steps : List (Nat × ROutcome)) :
    ∀ st1 st2 : ReadState,
      (read_to_end_loop true steps st1).data = (read_to_end_loop false steps st2).data ∧
      (read_to_end_loop true steps st1).outcome =
        (read_to_end_loop false steps st2).outcome ∧
      (read_to_end_loop true steps st1).readReqs =
        (read_to_end_loop false steps st2).readReqs := by
  induction steps with
  | nil => intro st1 st2; exact ⟨rfl, rfl, rfl⟩
  | cons s steps ih =>
    intro st1 st2
    obtain ⟨c, r⟩ := s
    rcases r with ⟨data, anc⟩ | k
    · by_cases hd : (data.take c).isEmpty
      · simp [read_to_end_loop, partApplRead_res_ok, hd]
      · have hrec := ih (partApplRead true st1 c (.ok data anc)).stAfter
          (partApplRead false st2 c (.ok data anc)).stAfter
        simp [read_to_end_loop, partApplRead_res_ok, hd, hrec.1, hrec.2.1, hrec.2.2]
    · by_cases hk : k = IoErrorKind.interrupted
      · subst hk
        have hrec := ih (partApplRead true st1 c (.err .interrupted)).stAfter
          (partApplRead false st2 c (.err .interrupted)).stAfter
        simp [read_to_end_loop, partApplRead_res_err, hrec.1, hrec.2.1, hrec.2.2]
      · simp [read_to_end_loop, partApplRead_res_err, hk]

theorem read_to_end_loop_reserveCalls (steps : List (Nat × ROutcome)) :
    ∀ st : ReadState,
      ((read_to_end_loop true steps st).reserveCalls =
        (read_to_end_loop true steps st).readReqs) ∧
      (read_to_end_loop false steps st).reserveCalls = [] := by
  induction steps with
  | nil => intro st; exact ⟨rfl, rfl⟩
  | cons s steps ih =>
    intro st
    obtain ⟨c, r⟩ := s
    rcases r with ⟨data, anc⟩ | k
    · by_cases hd : (data.take c).isEmpty
      · simp [read_to_end_loop, partApplRead_res_ok, hd, partApplRead_resLog]
      · have h1 := (ih (partApplRead true st c (.ok data anc)).stAfter).1
        have h2 := (ih (partApplRead false st c (.ok data anc)).stAfter).2
        simp [read_to_end_loop, partApplRead_res_ok, hd, partApplRead_resLog, h1, h2]
    · by_cases hk : k = IoErrorKind.interrupted
      · subst hk
        have h1 := (ih (partApplRead true st c (.err .interrupted)).stAfter).1
        have h2 := (ih (partApplRead false st c (.err .interrupted)).stAfter).2
        simp [read_to_end_loop, partApplRead_res_err, partApplRead_resLog, h1, h2]
      · simp [read_to_end_loop, partApplRead_res_err, hk, partApplRead_resLog]

theorem read_to_end_loop_fixed (steps : List (Nat × ROutcome)) :
    ∀ st : ReadState, st.abuf.growable = false →
      (read_to_end_loop true steps st).data = (read_to_end_loop false steps st).data ∧
      (read_to_end_loop true steps st).st = (read_to_end_loop false steps st).st ∧
      (read_to_end_loop true steps st).pairs =
        (read_to_end_loop false steps st).pairs ∧
      (read_to_end_loop true steps st).outcome =
        (read_to_end_loop false steps st).outcome := by
  induction steps with
  | nil => intro st _; exact ⟨rfl, rfl, rfl, rfl⟩
  | cons s steps ih =>
    intro st hg
    obtain ⟨c, r⟩ := s
    have hfix := partApplRead_fixed_eq st c r hg
    have hg2 : (partApplRead false st c r).stAfter.abuf.growable = false := by
      rw [partApplRead_growable]; exact hg
    rcases r with ⟨data, anc⟩ | k
    · by_cases hd : (data.take c).isEmpty
      · simp [read_to_end_loop, partApplRead_res_ok, hd, hfix]
      · have hrec := ih (partApplRead false st c (.ok data anc)).stAfter hg2
        simp [read_to_end_loop, partApplRead_res_ok, hd, hfix, hrec.1, hrec.2.1,
          hrec.2.2.1, hrec.2.2.2]
    · by_cases hk : k = IoErrorKind.interrupted
      · subst hk
        have hrec := ih (partApplRead false st c (.err .interrupted)).stAfter hg2
        simp [read_to_end_loop, partApplRead_res_err, hfix, hrec.1, hrec.2.1,
          hrec.2.2.1, hrec.2.2.2]
      · simp [read_to_end_loop, partApplRead_res_err, hk, hfix]

theorem read_exact_loop_ret (rs : List ROutcome) :
    ∀ (n : Nat) (st : ReadState), (read_exact_loop rs n st).st.ret =
      (read_exact_loop rs n st).pairs.foldl (· + ·) st.ret := by
  induction rs with
  | nil => intro n st; cases n <;> rfl
  | cons r rs ih =>
    intro n st
    rcases n with _ | m
    · rfl
    · rcases r with ⟨data, anc⟩ | k
      · by_cases hd : (data.take (m + 1)).isEmpty
        · simp [read_exact_loop, partApplRead_res_ok, hd, partApplRead_ret_eq]
        · have hrec := ih (m + 1 - (data.take (m + 1)).length)
            (partApplRead false st (m + 1) (.ok data anc)).stAfter
          simp only [List.length_take] at hrec
          simp [read_exact_loop, partApplRead_res_ok, hd, hrec, List.foldl_append,
            partApplRead_ret_eq]
      · by_cases hk : k = IoErrorKind.interrupted
        · subst hk
          have hrec := ih (m + 1)
            (partApplRead false st (m + 1) (.err .interrupted)).stAfter
          simp [read_exact_loop, partApplRead_res_err, hrec, partApplRead_ret_eq,
            partApplRead_pair_err]
        · simp [read_exact_loop, partApplRead_res_err, hk, partApplRead_ret_eq,
            partApplRead_pair_err]

/-- C3: each derived read operation returns the componentwise sum of all success
pairs produced by its internal calls to the `read_ancillary` primitive — the
accumulator `ret` equals the componentwise sum of the whole transcript of success
pairs, not merely the last pair. -/
theorem derived_reads_return_componentwise_sum (steps : List (Nat × ROutcome))
    (rs : List ROutcome) (n : Nat) (ab1 ab2 ab3 : CmsgMutModel) :
    (read_ancillary_to_end steps ab1).st.ret =
      sumSuccess (read_ancillary_to_end steps ab1).pairs ∧
    (read_to_end_with_ancillary steps ab2).st.ret =
      sumSuccess (read_to_end_with_ancillary steps ab2).pairs ∧
    (read_exact_with_ancillary rs n ab3).st.ret =
      sumSuccess (read_exact_with_ancillary rs n ab3).pairs :=
  ⟨read_to_end_loop_ret true steps ⟨ab1, ⟨0, 0⟩⟩,
   read_to_end_loop_ret false steps ⟨ab2, ⟨0, 0⟩⟩,
   read_exact_loop_ret rs n ⟨ab3, ⟨0, 0⟩⟩⟩

/-- C8: applied to the same input stream, `read_ancillary_to_end` and
`read_to_end_with_ancillary` produce identical main-buffer contents, identical final
results, identical main-chunk requests and identical main byte counts, for any pair
of ancillary buffers; they differ only in the ancillary-buffer reservation. -/
theorem read_to_end_variants_agree_on_main (steps : List (Nat × ROutcome))
    (ab1 ab2 : CmsgMutModel) :
    (read_ancillary_to_end steps ab1).data =
      (read_to_end_with_ancillary steps ab2).data ∧
    (read_ancillary_to_end steps ab1).outcome =
      (read_to_end_with_ancillary steps ab2).outcome ∧
    (read_ancillary_to_end steps ab1).readReqs =
      (read_to_end_with_ancillary steps ab2).readReqs ∧
    (read_ancillary_to_end steps ab1).st.ret.main =
      (read_to_end_with_ancillary steps ab2).st.ret.main := by
  have ha := read_to_end_loop_agree steps ⟨ab1, ⟨0, 0⟩⟩ ⟨ab2, ⟨0, 0⟩⟩
  refine ⟨ha.1, ha.2.1, ha.2.2, ?_⟩
  have h1 := read_to_end_loop_main true steps ⟨ab1, ⟨0, 0⟩⟩
  have h2 := read_to_end_loop_main false steps ⟨ab2, ⟨0, 0⟩⟩
  rw [read_ancillary_to_end, read_to_end_with_ancillary, h1, h2, ha.1]

/-- C9: on every iteration of `read_ancillary_to_end` the ancillary buffer is asked
to reserve exactly the main-buffer chunk size requested for that iteration (the
reserve-call transcript equals the chunk-request transcript, while
`read_to_end_with_ancillary` never reserves), and the returned amount is ignored:
with a buffer kind that cannot grow the reservation silently no-ops and the whole
operation behaves identically to `read_to_end_with_ancillary`. -/
theorem read_ancillary_to_end_reserve_behavior (steps : List (Nat × ROutcome))
    (ab : CmsgMutModel) (h : ab.growable = false) :
    (∀ ab2, (read_ancillary_to_end steps ab2).reserveCalls =
      (read_ancillary_to_end steps ab2).readReqs) ∧
    (∀ ab3, (read_to_end_with_ancillary steps ab3).reserveCalls = []) ∧
    (read_ancillary_to_end steps ab).data =
      (read_to_end_with_ancillary steps ab).data ∧
    (read_ancillary_to_end steps ab).st = (read_to_end_with_ancillary steps ab).st ∧
    (read_ancillary_to_end steps ab).outcome =
      (read_to_end_with_ancillary steps ab).outcome := by
  have hfix := read_to_end_loop_fixed steps ⟨ab, ⟨0, 0⟩⟩ h
  exact ⟨fun ab2 => (read_to_end_loop_reserveCalls steps ⟨ab2, ⟨0, 0⟩⟩).1,
    fun ab3 => (read_to_end_loop_reserveCalls steps ⟨ab3, ⟨0, 0⟩⟩).2,
    hfix.1, hfix.2.1, hfix.2.2.2⟩

/-- Witness for `read_ancillary_to_end_reserve_behavior` on a two-step run against a
fixed-capacity ancillary buffer. -/
theorem read_ancillary_to_end_reserve_behavior_witness :
    (∀ ab2, (read_ancillary_to_end [(2, .ok [7, 8] 3), (2, .ok [] 0)] ab2).reserveCalls =
      (read_ancillary_to_end [(2, .ok [7, 8] 3), (2, .ok [] 0)] ab2).readReqs) ∧
    (∀ ab3, (read_to_end_with_ancillary [(2, .ok [7, 8] 3), (2, .ok [] 0)]
      ab3).reserveCalls = []) ∧
    (read_ancillary_to_end [(2, .ok [7, 8] 3), (2, .ok [] 0)] ⟨false, 1, 0⟩).data =
      (read_to_end_with_ancillary [(2, .ok [7, 8] 3), (2, .ok [] 0)] ⟨false, 1, 0⟩).data ∧
    (read_ancillary_to_end [(2, .ok [7, 8] 3), (2, .ok [] 0)] ⟨false, 1, 0⟩).st =
      (read_to_end_with_ancillary [(2, .ok [7, 8] 3), (2, .ok [] 0)] ⟨false, 1, 0⟩).st ∧
    (read_ancillary_to_end [(2, .ok [7, 8] 3), (2, .ok [] 0)] ⟨false, 1, 0⟩).outcome =
      (read_to_end_with_ancillary [(2, .ok [7, 8] 3), (2, .ok [] 0)]
        ⟨false, 1, 0⟩).outcome :=
  read_ancillary_to_end_reserve_behavior [(2, .ok [7, 8] 3), (2, .ok [] 0)]
    ⟨false, 1, 0⟩ (by decide)

theorem poll_ancillary_loop_no_wouldblock {α : Type}
    (tr : List (Except IoErrorKind α × ReadyOutcome))
    (h : ∀ p ∈ tr, p.2 ≠ ReadyOutcome.readyErr .wouldBlock) :
    poll_ancillary_loop tr ≠ some (.ready (.error .wouldBlock)) := by
  induction tr with
  | nil => simp [poll_ancillary_loop]
  | cons p rest ih =>
    obtain ⟨sc, rd⟩ := p
    rcases sc with k | v
    case ok => simp [poll_ancillary_loop]
    case error =>
      by_cases hk : k = IoErrorKind.wouldBlock
      · subst hk
        rcases rd with _ | _ | k2
        · simp [poll_ancillary_loop]
        · have ht := ih fun q hq => h q (List.mem_cons_of_mem _ hq)
          simpa [poll_ancillary_loop] using ht
        · have h2 : k2 ≠ IoErrorKind.wouldBlock := by
            intro he
            exact h (Except.error IoErrorKind.wouldBlock, ReadyOutcome.readyErr k2)
              (by simp) (by rw [he])
          simp [poll_ancillary_loop, h2]
      · simp [poll_ancillary_loop, hk]


/-- C6, counterexample: a poll whose raw syscall reports would-block but whose
readiness poll reports the descriptor already ready retries immediately and resolves
with the success value of the second syscall — it does not suspend (return
Pending) — so a would-block syscall outcome does not always lead to returning
Pending. -/
theorem c6_wouldblock_pending_counterexample :
    poll_read_ancillary_vectored
      [(.error .wouldBlock, .readyOk), (.ok ⟨5, 0⟩, .readyOk)] =
      some (.ready (.ok ⟨5, 0⟩)) ∧
    poll_read_ancillary_vectored
      [(.error .wouldBlock, .readyOk), (.ok ⟨5, 0⟩, .readyOk)] ≠
      some .pendingRes := by decide

/-- C6 (amended): provided the reactor never reports a readiness error of would-block
kind (as tokio guarantees), neither retry loop ever resolves with a would-block
error: a would-block syscall outcome leads to polling readiness — suspending
(returning Pending) exactly when the reactor is not yet ready, and retrying the
syscall otherwise — and Ready carries only a syscall success value, a hard
(non-would-block) syscall error, or a propagated readiness error. -/
theorem poll_ancillary_never_wouldblock
    (trR : List (Except IoErrorKind ReadAncillarySuccess × ReadyOutcome))
    (trW : List (Except IoErrorKind Nat × ReadyOutcome))
    (hR : ∀ p ∈ trR, p.2 ≠ ReadyOutcome.readyErr .wouldBlock)
    (hW : ∀ p ∈ trW, p.2 ≠ ReadyOutcome.readyErr .wouldBlock) :
    poll_read_ancillary_vectored trR ≠ some (.ready (.error .wouldBlock)) ∧
    poll_write_ancillary_vectored trW ≠ some (.ready (.error .wouldBlock)) ∧
    (∀ rest, trR = (.error .wouldBlock, ReadyOutcome.pending) :: rest →
      poll_read_ancillary_vectored trR = some .pendingRes) ∧
    (∀ rest, trW = (.error .wouldBlock, ReadyOutcome.pending) :: rest →
      poll_write_ancillary_vectored trW = some .pendingRes) := by
  refine ⟨poll_ancillary_loop_no_wouldblock trR hR,
    poll_ancillary_loop_no_wouldblock trW hW, ?_, ?_⟩
  · intro rest hr
    rw [hr]
    rfl
  · intro rest hw
    rw [hw]
    rfl

/-- Witness for `poll_ancillary_never_wouldblock` on one-step traces whose syscall
reports would-block and whose reactor is not yet ready. -/
theorem poll_ancillary_never_wouldblock_witness :
    poll_read_ancillary_vectored [(.error .wouldBlock, ReadyOutcome.pending)] ≠
      some (.ready (.error .wouldBlock)) ∧
    poll_write_ancillary_vectored [(.error .wouldBlock, ReadyOutcome.pending)] ≠
      some (.ready (.error .wouldBlock)) ∧
    (∀ rest, [((.error .wouldBlock : Except IoErrorKind ReadAncillarySuccess),
        ReadyOutcome.pending)] =
        (.error .wouldBlock, ReadyOutcome.pending) :: rest →
      poll_read_ancillary_vectored [(.error .wouldBlock, ReadyOutcome.pending)] =
        some .pendingRes) ∧
    (∀ rest, [((.error .wouldBlock : Except IoErrorKind Nat),
        ReadyOutcome.pending)] =
        (.error .wouldBlock, ReadyOutcome.pending) :: rest →
      poll_write_ancillary_vectored [(.error .wouldBlock, ReadyOutcome.pending)] =
        some .pendingRes) :=
  poll_ancillary_never_wouldblock [(.error .wouldBlock, ReadyOutcome.pending)]
    [(.error .wouldBlock, ReadyOutcome.pending)] (by decide) (by decide)

/-- C7: reunite applied to the two halves of an owning split reconstructs the
original connection; for arbitrary halves it succeeds exactly when both carry the
identity tag of the same split connection, and on mismatch it returns both supplied
halves unchanged inside the typed `ReuniteError` — neither half is dropped or
altered. -/
theorem reunite_matching_tags (c : UdStream) (r : OwnedReadHalf)
    (w : OwnedWriteHalf) :
    (UdStream.reunite c.intoSplit.1 c.intoSplit.2 = .ok c) ∧
    (r.inner.tag = w.inner.tag ↔ ∃ s, UdStream.reunite r w = .ok s) ∧
    (r.inner.tag ≠ w.inner.tag → UdStream.reunite r w = .error ⟨r, w⟩) := by
  refine ⟨?_, ⟨?_, ?_⟩, ?_⟩
  · simp [UdStream.reunite, UdStream.intoSplit, TokioUdStream.intoSplit,
      TokioOwnedReadHalf.reunite]
  · intro h
    refine ⟨⟨⟨r.inner.tag⟩⟩, ?_⟩
    simp [UdStream.reunite, TokioOwnedReadHalf.reunite, h]
  · rintro ⟨s, hs⟩
    by_cases ht : r.inner.tag = w.inner.tag
    · exact ht
    · simp [UdStream.reunite, TokioOwnedReadHalf.reunite, ht] at hs
  · intro ht
    simp [UdStream.reunite, TokioOwnedReadHalf.reunite, ht, reuniteErrorOfTokio]

end Interprocess
